import Mathlib

set_option allowUnsafeReducibility true
attribute [local semireducible] Rat.inv Rat.ofScientific Rat.mul Rat.add Rat.sub

/-! Shallow embedding of the signal/order pipeline of the quant-dinger trading
engine: the strategy runner in
`backend_api_python/app/services/trading_executor.py` and the pending-order
worker in `backend_api_python/app/services/pending_order_worker.py`.
Python floats are modelled as exact rationals, Python strings as `String`
with explicit normalization helpers, and the database tables as lists of rows. -/

/-- Python `str.lower()` applied characterwise. -/
def lowerStr (s : String) : String := ⟨s.data.map Char.toLower⟩

/-- Whitespace test backing the `str.strip()` model. -/
def isSpaceChar (c : Char) : Bool := c = ' ' || c = '\t' || c = '\n' || c = '\r'

/-- Python `str.strip()`: drop whitespace from both ends. -/
def stripStr (s : String) : String :=
  ⟨((s.data.dropWhile isSpaceChar).reverse.dropWhile isSpaceChar).reverse⟩

/-- Python substring containment `sub in s`. -/
def strContains (s sub : String) : Bool :=
  s.data.tails.any (fun t => sub.data.isPrefixOf t)

/-- Python `(s or dflt)` on strings: the empty string is falsy. -/
def orElseStr (s dflt : String) : String := if s = "" then dflt else s

/-- The `(s or dflt).strip().lower()` normalization used throughout the source. -/
def normStr (s dflt : String) : String := lowerStr (stripStr (orElseStr s dflt))

/-- Python `s.startswith(pre)`. -/
def startsWithStr (s pre : String) : Bool := pre.data.isPrefixOf s.data

/-- Lexicographic comparison of character lists, for the Python string
comparison in sort keys. -/
def charListLe : List Char → List Char → Bool
  | [], _ => true
  | _ :: _, [] => false
  | a :: as, b :: bs => if a < b then true else if b < a then false else charListLe as bs

/-- Python lexicographic `s1 <= s2` on strings. -/
def strLe (a b : String) : Bool := charListLe a.data b.data

/-- One pending/triggered signal of the strategy runner, as built by
`TradingExecutor._execute_indicator_with_prices` and by the server-side
risk exits: a type tag, a trigger price, a position-size/ratio payload and the
candle timestamp. -/
structure TickSignal where
  stype : String
  triggerPrice : ℚ
  positionSize : ℚ
  timestamp : Int
  deriving DecidableEq, Repr

/-- Embedding of `TradingExecutor._is_signal_allowed`: the strict position
state machine (flat accepts only open_long/open_short; long accepts only
add_long/reduce_long/close_long; short accepts only
add_short/reduce_short/close_short). -/
def isSignalAllowed (state signalType : String) : Bool :=
  let st := normStr state "flat"
  let sig := normStr signalType ""
  if st = "flat" then sig = "open_long" || sig = "open_short"
  else if st = "long" then sig = "add_long" || sig = "reduce_long" || sig = "close_long"
  else if st = "short" then sig = "add_short" || sig = "reduce_short" || sig = "close_short"
  else false

/-- Embedding of `TradingExecutor._signal_priority`: lower value = higher
priority; close_* before reduce_* before open_* before add_*. -/
def signalPriority (signalType : String) : Nat :=
  let sig := normStr signalType ""
  if startsWithStr sig "close_" then 0
  else if startsWithStr sig "reduce_" then 1
  else if startsWithStr sig "open_" then 2
  else if startsWithStr sig "add_" then 3
  else 99

/-- The sort key used on candidates in `_run_strategy_loop`:
ascending (priority, timestamp, type). -/
def signalKeyLe (a b : TickSignal) : Bool :=
  if signalPriority a.stype ≠ signalPriority b.stype then
    decide (signalPriority a.stype < signalPriority b.stype)
  else if a.timestamp ≠ b.timestamp then decide (a.timestamp < b.timestamp)
  else strLe a.stype b.stype

/-- Stable insertion step for the candidate sort: a signal is placed before
the first existing element it compares less-or-equal to, so equal keys keep
their original order (as Python sorted does). -/
def insertByKey (a : TickSignal) : List TickSignal → List TickSignal
  | [] => [a]
  | b :: l => if signalKeyLe a b then a :: b :: l else b :: insertByKey a l

/-- Stable sort of the candidate list by (priority, timestamp, type),
modelling the Python sorted call in `_run_strategy_loop`. -/
def sortByKey : List TickSignal → List TickSignal
  | [] => []
  | a :: l => insertByKey a (sortByKey l)

/-- The state-machine filter applied to the triggered signals of one tick in
`_run_strategy_loop`. -/
def allowedCandidates (state : String) (triggered : List TickSignal) : List TickSignal :=
  triggered.filter (fun s => isSignalAllowed state s.stype)

/-- The trade-direction tie-break applied from the flat state in
`_run_strategy_loop`. -/
def directionFiltered (state tradeDirection : String)
    (candidates : List TickSignal) : List TickSignal :=
  if state = "flat" then
    let td := normStr tradeDirection "both"
    if td = "long" then candidates.filter (fun s => s.stype = "open_long")
    else if td = "short" then candidates.filter (fun s => s.stype = "open_short")
    else candidates
  else candidates

/-- Embedding of the per-tick signal selection of `_run_strategy_loop`:
filter by the state machine, tie-break open directions by trade_direction,
sort by (priority, timestamp, type) and pick the first candidate that the
per-candle dedup map does not skip.  At most one signal is selected. -/
def selectSignal (state tradeDirection : String) (dedupSkip : TickSignal → Bool)
    (triggered : List TickSignal) : Option TickSignal :=
  (sortByKey (directionFiltered state tradeDirection
      (allowedCandidates state triggered))).find?
    (fun s => !dedupSkip s)

/-- Embedding of the per-signal trigger filter of `_run_strategy_loop`
(lines around the signals-to-trigger sweep): close_long/close_short fire
immediately when exit_trigger_mode is immediate, open/add fire immediately
when entry_trigger_mode is immediate, and a positive trigger price is
compared against the current price in the direction of the signal
(buy-like needs price ≥ trigger, sell-like needs price ≤ trigger).
A non-positive trigger price always fires.  Note that reduce_long and
reduce_short appear in none of the branches. -/
def evalTriggered (exitTriggerMode entryTriggerMode : String) (currentPrice : ℚ)
    (s : TickSignal) : Bool :=
  let triggered0 := false
  let triggered1 :=
    if (s.stype = "close_long" || s.stype = "close_short")
        && (exitTriggerMode = "immediate") then true
    else triggered0
  let triggered2 :=
    if (s.stype = "open_long" || s.stype = "open_short"
        || s.stype = "add_long" || s.stype = "add_short")
        && (entryTriggerMode = "immediate") then true
    else triggered1
  if 0 < s.triggerPrice then
    if s.stype = "open_long" || s.stype = "close_short" || s.stype = "add_long" then
      if s.triggerPrice ≤ currentPrice then true else triggered2
    else if s.stype = "open_short" || s.stype = "close_long" || s.stype = "add_short" then
      if currentPrice ≤ s.triggerPrice then true else triggered2
    else triggered2
  else true

/-- Embedding of `TradingExecutor._to_ratio`: convert a percent-like value to
a ratio in [0, 1], accepting both 0..1 and 0..100 inputs (None falls back to
the default). -/
def toRatio01 (v : Option ℚ) (dflt : ℚ) : ℚ :=
  let x := v.getD dflt
  let x := if 1 < x then x / 100 else x
  let x := if x < 0 then 0 else x
  if 1 < x then 1 else x

/-- One local position row of `qd_strategy_positions` as read by the runner. -/
structure PositionRow where
  side : String
  size : ℚ
  entryPrice : ℚ
  deriving DecidableEq, Repr

/-- Embedding of the order-sizing portion of `TradingExecutor._execute_signal`:
open_* may take its ratio from trading_config.entry_pct; open/add convert the
(normalized) capital ratio into a base amount (times leverage for futures);
reduce_* takes a ratio of the current position size and is promoted to the
matching close_* when the reduce amount reaches 0.999 of the size; close_*
uses the full current position size.  `none` models the `return False`
rejection paths. -/
def computeSignalOrder (signalType : String) (positionSize : Option ℚ)
    (entryPct : Option ℚ) (marketType : String)
    (availableCapital leverage currentPrice : ℚ)
    (currentPositions : List PositionRow) : Option (String × ℚ) :=
  let sig := lowerStr (stripStr signalType)
  let ps : Option ℚ :=
    if (sig = "open_long" || sig = "open_short") && entryPct.isSome then
      some (toRatio01 entryPct (positionSize.getD 0))
    else positionSize
  if sig = "reduce_long" || sig = "reduce_short" then
    let posSide := if strContains sig "long" then "long" else "short"
    match currentPositions.find? (fun p => normStr p.side "" = posSide) with
    | none => none
    | some pos =>
      if pos.size ≤ 0 then none
      else
        let reduceRt := toRatio01 positionSize 0.1
        let reduceAmount := pos.size * reduceRt
        if pos.size * 0.999 ≤ reduceAmount then
          let newSig := if posSide = "long" then "close_long" else "close_short"
          match currentPositions.find? (fun p => p.side ≠ "" && strContains newSig p.side) with
          | none => none
          | some pos2 => if pos2.size ≤ 0 then none else some (newSig, pos2.size)
        else some (sig, reduceAmount)
  else if strContains sig "close" then
    match currentPositions.find? (fun p => p.side ≠ "" && strContains signalType p.side) with
    | none => none
    | some pos => if pos.size ≤ 0 then none else some (signalType, pos.size)
  else if strContains sig "open" || strContains sig "add" then
    let ps2 : ℚ :=
      match ps with
      | none => 0.05
      | some v => if v ≤ 0 then 0.05 else v
    let rt := toRatio01 (some ps2) 0.05
    let amount :=
      if marketType = "spot" then availableCapital * rt / currentPrice
      else availableCapital * rt * leverage / currentPrice
    if amount ≤ 0 then none else some (signalType, amount)
  else some (signalType, 0)

/-- Embedding of `TradingExecutor._server_side_stop_loss_signal`: with a
position present, entry and current price positive, and a positive
stop_loss_pct (0..1 or 0..100), the threshold is the entry price moved by
sl divided by leverage (floored at 1); a long fires close_long when the price
is at or below entry·(1 − sl/lev), a short fires close_short when the price
is at or above entry·(1 + sl/lev).  The returned pair is (signal type,
stop line).  The enabled flag models the enable_server_side_stop_loss
config check. -/
def serverStopLossSignal (enabled : Bool) (currentPositions : List PositionRow)
    (currentPrice leverage slCfg : ℚ) : Option (String × ℚ) :=
  if !enabled then none
  else
    match currentPositions with
    | [] => none
    | pos :: _ =>
      if pos.side ≠ "long" && pos.side ≠ "short" then none
      else if pos.entryPrice ≤ 0 || currentPrice ≤ 0 then none
      else
        let sl := if 1 < slCfg then slCfg / 100 else slCfg
        if sl ≤ 0 then none
        else
          let lev := max 1 leverage
          let slMove := sl / lev
          if pos.side = "long" then
            let stopLine := pos.entryPrice * (1 - slMove)
            if currentPrice ≤ stopLine then some ("close_long", stopLine) else none
          else
            let stopLine := pos.entryPrice * (1 + slMove)
            if stopLine ≤ currentPrice then some ("close_short", stopLine) else none

/-- One row of the `pending_orders` queue as touched by
`PendingOrderWorker._mark_processing`. -/
structure PendingRow where
  oid : Nat
  status : String
  attempts : Nat
  processedAt : Option Int
  updatedAt : Option Int
  deriving DecidableEq, Repr

/-- Effect on one row of the claim UPDATE in
`PendingOrderWorker._mark_processing`: rows matching `id = orderId AND
status = pending` move to processing with attempts incremented and
processed_at/updated_at set to now; all other rows are untouched. -/
def markProcessingRow (orderId : Nat) (now : Int) (r : PendingRow) : PendingRow :=
  if r.oid = orderId ∧ r.status = "pending" then
    { r with
      status := "processing"
      attempts := r.attempts + 1
      processedAt := some now
      updatedAt := some now }
  else r

/-- Embedding of `PendingOrderWorker._mark_processing`: run the guarded
UPDATE over the table and return whether the reported affected row count is
positive, together with the updated table. -/
def markProcessing (db : List PendingRow) (orderId : Nat) (now : Int) :
    Bool × List PendingRow :=
  let affected :=
    (db.filter (fun r => decide (r.oid = orderId ∧ r.status = "pending"))).length
  (decide (0 < affected), db.map (markProcessingRow orderId now))

/-- One local position row as read by the reconciliation pass
(`qd_strategy_positions`: id, symbol, side, size). -/
structure LocalPosRow where
  rid : Nat
  symbol : String
  side : String
  size : ℚ
  deriving DecidableEq, Repr

/-- The flat-detection epsilon of `_sync_positions_best_effort`. -/
def syncEps : ℚ := 1 / 1000000000000

/-- Per-row decision of the reconciliation loop. -/
inductive RecDecision
  | skipRow
  | deleteRow
  | updateRow (q : ℚ)
  deriving DecidableEq, Repr

/-- Embedding of the per-row reconciliation logic of
`PendingOrderWorker._sync_positions_best_effort`: rows with a missing id,
empty symbol or unknown side are skipped; when the exchange snapshot shows
(at most epsilon) zero for that (symbol, side) the row is deleted; otherwise
the size is updated to the exchange quantity when the local size is
non-positive or diverges by more than 1% relative to max(1, local size).
The snapshot function models the `exch_size` map with default quantity 0. -/
def rowDecision (exchSize : String → String → ℚ) (r : LocalPosRow) : RecDecision :=
  let sym := stripStr r.symbol
  let side := lowerStr (stripStr r.side)
  if r.rid = 0 || sym = "" || (side ≠ "long" && side ≠ "short") then .skipRow
  else
    let exchQty := exchSize sym side
    if exchQty ≤ syncEps then .deleteRow
    else if r.size ≤ 0 || decide ((1 : ℚ)/100 < |exchQty - r.size| / max 1 r.size) then
      .updateRow exchQty
    else .skipRow

/-- The state of the local position table after one reconciliation pass:
deleted rows disappear, updated rows take the exchange size, skipped rows are
kept unchanged.  Reconciliation never inserts a row. -/
def applyReconcile (exchSize : String → String → ℚ)
    (rows : List LocalPosRow) : List LocalPosRow :=
  rows.filterMap (fun r =>
    match rowDecision exchSize r with
    | .deleteRow => none
    | .updateRow q => some { r with size := q }
    | .skipRow => some r)

/-- Number of database writes (deletes plus updates) a reconciliation pass
performs. -/
def reconcileWriteCount (exchSize : String → String → ℚ)
    (rows : List LocalPosRow) : Nat :=
  rows.countP (fun r => decide (rowDecision exchSize r ≠ .skipRow))

/-- Outcome of one exchange interaction phase (limit or market) in
`PendingOrderWorker._execute_live_order`: the observed fill of the phase, or
a raised `LiveTradingError`, or an unexpected exception. -/
inductive PhaseOutcome
  | observedFill (fq px : ℚ)
  | tradingErr (msg : String)
  | unexpectedErr (msg : String)
  deriving DecidableEq, Repr

/-- Terminal queue status produced by `_execute_live_order` for one dispatch:
`failedQ` models `_mark_failed`; `sentQ` models `_mark_sent` carrying the
persisted filled quantity and average price, plus whether the
record-trade/update-position branch runs (`filled > 0 and avg_price > 0`). -/
inductive LiveResult
  | failedQ (err : String)
  | sentQ (filled avgPrice : ℚ) (recorded : Bool)
  deriving DecidableEq, Repr

/-- Embedding of the `_apply_fill` accumulator of `_execute_live_order`:
a phase contributes to (total_base, total_quote) only when both the filled
quantity and the average price are positive. -/
def fillContribution (fq px : ℚ) : ℚ × ℚ :=
  if 0 < fq ∧ 0 < px then (fq, fq * px) else (0, 0)

/-- Embedding of the settlement tail of `_execute_live_order`: the final
filled/avg pair is the accumulated fills, except that a zero observed fill
with a positive reference price is replaced by the full requested amount at
the reference price; the order is marked sent and the local
trade/position records are applied exactly when the persisted fill and
average price are positive. -/
def settleLiveOrder (amount refPrice totalBase totalQuote : ℚ) : LiveResult :=
  let filledFinal := totalBase
  let avgFinal := if 0 < totalBase then totalQuote / totalBase else 0
  let pair :=
    if filledFinal ≤ 0 ∧ 0 < refPrice then (amount, refPrice)
    else (filledFinal, avgFinal)
  .sentQ pair.1 pair.2 (decide (0 < pair.1) && decide (0 < pair.2))

/-- Embedding of the crypto maker-then-market path of
`PendingOrderWorker._execute_live_order` (after the guard checks): a
non-positive amount fails immediately; the optional limit phase accumulates
its observed fill (phase errors fall through with nothing accumulated and the
full amount remaining); the OKX tail guard may zero the remainder; a market
phase for a positive remainder accumulates its observed fill, degrades a
`LiveTradingError` to partial success when the limit phase already filled
something and fails the order otherwise, and fails the order on any
unexpected exception; then the settlement tail runs. -/
def executeLiveOrder (amount refPrice : ℚ) (useLimitFirst : Bool)
    (limitOutcome : PhaseOutcome) (tailGuardZero : Bool)
    (marketOutcome : PhaseOutcome) : LiveResult :=
  if amount ≤ 0 then .failedQ "invalid_amount"
  else
    let acc1 : ℚ × ℚ :=
      if useLimitFirst then
        match limitOutcome with
        | .observedFill fq px => fillContribution fq px
        | .tradingErr _ => (0, 0)
        | .unexpectedErr _ => (0, 0)
      else (0, 0)
    let remaining0 := max 0 (amount - acc1.1)
    let remaining := if tailGuardZero then 0 else remaining0
    if 0 < remaining then
      match marketOutcome with
      | .observedFill fq px =>
        let c := fillContribution fq px
        settleLiveOrder amount refPrice (acc1.1 + c.1) (acc1.2 + c.2)
      | .tradingErr e =>
        if 0 < acc1.1 then settleLiveOrder amount refPrice acc1.1 acc1.2
        else .failedQ e
      | .unexpectedErr e => .failedQ e
    else settleLiveOrder amount refPrice acc1.1 acc1.2

/-- Embedding of the execution-mode resolution at the top of
`PendingOrderWorker._dispatch_one`: the queued row mode (falsy defaults to
signal, then strip/lower); a non-live row whose owning strategy is persisted
as live is upgraded to live. -/
def resolveDispatchMode (rowMode : String) (strategyId : Nat)
    (persistedMode : String) : String :=
  let mode := normStr rowMode "signal"
  if mode ≠ "live" ∧ strategyId ≠ 0 ∧ normStr persistedMode "" = "live" then "live"
  else mode

/-- The three dispatch routes of `_dispatch_one` after mode resolution. -/
inductive DispatchRoute
  | notifyRoute
  | liveRoute
  | failRoute (err : String)
  deriving DecidableEq, Repr

/-- Embedding of the dispatch branch of `_dispatch_one`: signal mode goes to
the notification pipeline, live mode to `_execute_live_order`, anything else
is marked failed. -/
def dispatchRoute (mode : String) : DispatchRoute :=
  if mode = "signal" then .notifyRoute
  else if mode = "live" then .liveRoute
  else .failRoute ("unsupported_execution_mode:" ++ mode)

theorem mem_insertByKey (x a : TickSignal) (l : List TickSignal)
    (h : x ∈ insertByKey a l) : x = a ∨ x ∈ l := by
  induction l with
  | nil =>
    rw [insertByKey] at h
    exact Or.inl (List.mem_singleton.mp h)
  | cons b l ih =>
    rw [insertByKey] at h
    by_cases hc : signalKeyLe a b
    · rw [if_pos hc] at h
      rcases List.mem_cons.mp h with h | h
      · exact Or.inl h
      · exact Or.inr h
    · rw [if_neg hc] at h
      rcases List.mem_cons.mp h with h | h
      · exact Or.inr (h ▸ List.mem_cons_self b l)
      · rcases ih h with h2 | h2
        · exact Or.inl h2
        · exact Or.inr (List.mem_cons_of_mem b h2)

theorem mem_sortByKey (x : TickSignal) (l : List TickSignal)
    (h : x ∈ sortByKey l) : x ∈ l := by
  induction l with
  | nil => simp [sortByKey] at h
  | cons a l ih =>
    rw [sortByKey] at h
    rcases mem_insertByKey x a _ h with h2 | h2
    · exact h2 ▸ List.mem_cons_self a l
    · exact List.mem_cons_of_mem a (ih h2)

theorem mem_directionFiltered (st td : String) (c : List TickSignal)
    (x : TickSignal) (h : x ∈ directionFiltered st td c) : x ∈ c := by
  simp only [directionFiltered] at h
  split at h
  · split at h
    · exact (List.mem_filter.mp h).1
    · split at h
      · exact (List.mem_filter.mp h).1
      · exact h
  · exact h

/-- C1: on every runner tick, a triggered signal reaches execution/enqueue
only if the strict state machine accepts it in the current position state
(flat accepts only open_long/open_short; long accepts only
add_long/reduce_long/close_long; short accepts only
add_short/reduce_short/close_short); signals not matching the state are
discarded by the candidate filter, and the selection returns an `Option`, so
at most one signal per tick per strategy reaches enqueue. -/
theorem selected_signal_obeys_state_machine
    (state tradeDirection : String) (dedupSkip : TickSignal → Bool)
    (triggered : List TickSignal) (s : TickSignal)
    (h : selectSignal state tradeDirection dedupSkip triggered = some s) :
    s ∈ triggered ∧ isSignalAllowed state s.stype = true := by
  unfold selectSignal at h
  have hmem := mem_directionFiltered _ _ _ _
    (mem_sortByKey _ _ (List.mem_of_find?_eq_some h))
  unfold allowedCandidates at hmem
  exact List.mem_filter.mp hmem

/-- Witness for C1: from flat, an open_long signal is selected and is
accepted by the state machine. -/
theorem selected_signal_obeys_state_machine_witness :
    (⟨"open_long", 100, 1/10, 0⟩ : TickSignal) ∈
        [(⟨"open_long", 100, 1/10, 0⟩ : TickSignal)]
      ∧ isSignalAllowed "flat" "open_long" = true :=
  selected_signal_obeys_state_machine "flat" "both" (fun _ => false)
    [⟨"open_long", 100, 1/10, 0⟩] ⟨"open_long", 100, 1/10, 0⟩ (by decide)

/-- C2: with exit_trigger_mode immediate, the trigger filter fires
close_long/close_short without price confirmation, but a reduce_long or
reduce_short signal with a positive trigger price is left untriggered by
every branch of the filter, contradicting the specified immediate firing of
reduce signals. -/
theorem reduce_signal_not_triggered_when_exit_immediate :
    evalTriggered "immediate" "price" 99 ⟨"reduce_long", 100, 1/10, 0⟩ = false
  ∧ evalTriggered "immediate" "price" 101 ⟨"reduce_short", 100, 1/10, 0⟩ = false
  ∧ evalTriggered "immediate" "price" 99 ⟨"close_long", 100, 0, 0⟩ = true := by
  decide

/-- C10: a queued order whose stored execution mode is not live, owned by a
strategy whose persisted execution mode is live, is upgraded and routed to
live execution instead of the notification pipeline. -/
theorem legacy_order_upgraded_to_live (rowMode persistedMode : String)
    (sid : Nat) (hmode : normStr rowMode "signal" ≠ "live") (hsid : sid ≠ 0)
    (hpm : normStr persistedMode "" = "live") :
    dispatchRoute (resolveDispatchMode rowMode sid persistedMode)
      = DispatchRoute.liveRoute := by
  unfold resolveDispatchMode
  rw [if_pos ⟨hmode, hsid, hpm⟩]
  decide

/-- Witness for C10: a legacy signal-mode row with a live strategy config is
dispatched live. -/
theorem legacy_order_upgraded_to_live_witness :
    dispatchRoute (resolveDispatchMode "signal" 7 "live")
      = DispatchRoute.liveRoute :=
  legacy_order_upgraded_to_live "signal" "live" 7 (by decide) (by decide)
    (by decide)

theorem markProcessingRow_idem (oid : Nat) (now now2 : Int) (r : PendingRow) :
    markProcessingRow oid now2 (markProcessingRow oid now r)
      = markProcessingRow oid now r := by
  unfold markProcessingRow
  by_cases hc : r.oid = oid ∧ r.status = "pending"
  · rw [if_pos hc, if_neg]
    intro h2
    simpa using h2.2
  · rw [if_neg hc, if_neg hc]

theorem markProcessingRow_not_pending (oid : Nat) (now : Int) (r : PendingRow) :
    ¬ ((markProcessingRow oid now r).oid = oid
        ∧ (markProcessingRow oid now r).status = "pending") := by
  unfold markProcessingRow
  by_cases hc : r.oid = oid ∧ r.status = "pending"
  · rw [if_pos hc]
    intro h2
    simpa using h2.2
  · rw [if_neg hc]
    exact hc

/-- C4: a pending order moves from pending to processing only through the
compare-and-set UPDATE guarded by status = pending, which also increments
attempts and sets processed_at; with ids unique the claim succeeds exactly
when one row is affected, and a second claim attempt on the claimed table is
a no-op (reports no affected row and leaves the table unchanged). -/
theorem pending_claim_is_guarded_cas (db : List PendingRow) (oid : Nat)
    (now now2 : Int) (r : PendingRow)
    (hu : (db.filter (fun x => decide (x.oid = oid))).length ≤ 1)
    (hchange : markProcessingRow oid now r ≠ r) :
    ((markProcessing db oid now).1 = true ↔
      (db.filter (fun x => decide (x.oid = oid ∧ x.status = "pending"))).length = 1)
  ∧ (r.oid = oid ∧ r.status = "pending"
      ∧ (markProcessingRow oid now r).status = "processing"
      ∧ (markProcessingRow oid now r).attempts = r.attempts + 1
      ∧ (markProcessingRow oid now r).processedAt = some now)
  ∧ markProcessing (markProcessing db oid now).2 oid now2
      = (false, (markProcessing db oid now).2) := by
  have hmono :
      (db.filter (fun x => decide (x.oid = oid ∧ x.status = "pending"))).length
        ≤ (db.filter (fun x => decide (x.oid = oid))).length := by
    rw [← List.countP_eq_length_filter, ← List.countP_eq_length_filter]
    refine List.countP_mono_left (fun x _ hx => ?_)
    simp only [decide_eq_true_eq] at hx ⊢
    exact hx.1
  have hcr : r.oid = oid ∧ r.status = "pending" := by
    by_contra hc
    exact hchange (by rw [markProcessingRow, if_neg hc])
  have hnil :
      ((db.map (markProcessingRow oid now)).filter
        (fun x => decide (x.oid = oid ∧ x.status = "pending"))) = [] := by
    refine List.filter_eq_nil_iff.mpr (fun x hx => ?_)
    rcases List.mem_map.mp hx with ⟨r0, _, rfl⟩
    simpa using markProcessingRow_not_pending oid now r0
  refine ⟨?_, ⟨hcr.1, hcr.2, ?_, ?_, ?_⟩, ?_⟩
  · simp only [markProcessing, decide_eq_true_eq]
    omega
  · rw [markProcessingRow, if_pos hcr]
  · rw [markProcessingRow, if_pos hcr]
  · rw [markProcessingRow, if_pos hcr]
  · simp only [markProcessing]
    simp only [hnil, List.length_nil]
    rw [Prod.mk.injEq]
    refine ⟨rfl, ?_⟩
    rw [List.map_map]
    exact List.map_congr_left (fun r0 _ => markProcessingRow_idem oid now now2 r0)

/-- Witness for C4: a one-row queue is claimed once (exactly one row
affected) and the second claim attempt is a no-op. -/
theorem pending_claim_is_guarded_cas_witness :
    ((markProcessing [⟨7, "pending", 0, none, none⟩] 7 11).1 = true ↔
      (([⟨7, "pending", 0, none, none⟩] : List PendingRow).filter
        (fun x => decide (x.oid = 7 ∧ x.status = "pending"))).length = 1)
  ∧ ((7:Nat) = 7 ∧ "pending" = "pending"
      ∧ (markProcessingRow 7 11 ⟨7, "pending", 0, none, none⟩).status = "processing"
      ∧ (markProcessingRow 7 11 ⟨7, "pending", 0, none, none⟩).attempts = 0 + 1
      ∧ (markProcessingRow 7 11 ⟨7, "pending", 0, none, none⟩).processedAt = some 11)
  ∧ markProcessing (markProcessing [⟨7, "pending", 0, none, none⟩] 7 11).2 7 12
      = (false, (markProcessing [⟨7, "pending", 0, none, none⟩] 7 11).2) :=
  pending_claim_is_guarded_cas [⟨7, "pending", 0, none, none⟩] 7 11 12
    ⟨7, "pending", 0, none, none⟩ (by decide) (by decide)

/-- C3 counterexample: the maker phase fills 2 of 5 and the market phase
raises an unexpected (non LiveTradingError) exception; the worker marks the
order failed even though the maker phase had filled a positive quantity. -/
theorem partial_fill_unexpected_error_marked_failed :
    executeLiveOrder 5 100 true (.observedFill 2 (9998/100)) false
      (.unexpectedErr "boom") = .failedQ "boom" := by decide

/-- C3 (amended): when the maker phase accumulated a positive fill and the
market phase fails with a LiveTradingError, the worker records the order as
sent with the partially filled quantity and its average price and never marks
it failed; an unexpected non-trading exception in the market phase still
marks the order failed. -/
theorem maker_partial_market_trading_error_sent
    (amount refPrice fq px : ℚ) (e : String)
    (hfq : 0 < fq) (hpx : 0 < px) (hlt : fq < amount) :
    executeLiveOrder amount refPrice true (.observedFill fq px) false
      (.tradingErr e) = .sentQ fq px true := by
  have hc : (0:ℚ) < fq ∧ 0 < px := ⟨hfq, hpx⟩
  have hA : ¬ amount ≤ 0 := not_le.mpr (hfq.trans hlt)
  have hrem : (0:ℚ) < max 0 (amount - fq) :=
    lt_max_iff.mpr (Or.inr (sub_pos.mpr hlt))
  have hnotle : ¬ (fq ≤ 0 ∧ (0:ℚ) < refPrice) := by
    rintro ⟨h1, -⟩
    exact absurd h1 (not_le.mpr hfq)
  have havg : fq * px / fq = px := mul_div_cancel_left₀ px (ne_of_gt hfq)
  simp [executeLiveOrder, fillContribution, settleLiveOrder, hc, hA, hrem,
    hfq, hpx, hnotle, havg]

/-- Witness for C3 (amended): maker fills 2 of 5 at 99.98, market raises a
LiveTradingError, and the order is persisted as sent with the partial fill. -/
theorem maker_partial_market_trading_error_sent_witness :
    executeLiveOrder 5 100 true (.observedFill 2 (9998/100)) false
      (.tradingErr "min_notional") = .sentQ 2 (9998/100) true :=
  maker_partial_market_trading_error_sent 5 100 2 (9998/100) "min_notional"
    (by norm_num) (by norm_num) (by norm_num)

/-- C9: when a live crypto dispatch completes without a raised failure but
the accumulated observed fill of both phases is zero and the reference price
is positive, the worker marks the order sent with filled equal to the full
requested amount and avg_price equal to the reference price, and the
synthesized fill is applied to the local position and trade records. -/
theorem zero_observed_fill_synthesized_as_full
    (amount refPrice lq lp mq mp : ℚ) (useLimitFirst tailGuardZero : Bool)
    (ham : 0 < amount) (href : 0 < refPrice)
    (hl : ¬ (0 < lq ∧ 0 < lp)) (hm : ¬ (0 < mq ∧ 0 < mp)) :
    executeLiveOrder amount refPrice useLimitFirst (.observedFill lq lp)
      tailGuardZero (.observedFill mq mp) = .sentQ amount refPrice true := by
  have hA : ¬ amount ≤ 0 := not_le.mpr ham
  have hsettle : settleLiveOrder amount refPrice 0 0 = .sentQ amount refPrice true := by
    simp only [settleLiveOrder, lt_irrefl, if_neg (lt_irrefl (0:ℚ)),
      if_pos (And.intro le_rfl href)]
    simp [ham, href]
  simp only [executeLiveOrder, fillContribution, if_neg hl, if_neg hm,
    if_neg hA]
  cases useLimitFirst <;> cases tailGuardZero <;>
    simp [hsettle, ham, hA, lt_irrefl]

theorem toRatio01_pos (ps d : ℚ) (hps : 0 < ps) : 0 < toRatio01 (some ps) d := by
  unfold toRatio01
  simp only [Option.getD]
  split_ifs <;> linarith

/-- C5: open/add orders are sized as capital·ratio/price on spot and
capital·ratio·leverage/price on futures, with the position ratio normalized
into [0,1] accepting both 0..1 and 0..100 inputs; a reduce order takes
ratio·size of the current position, and a reduce amount reaching
0.999·size is promoted to the matching close with the full position size. -/
theorem position_sizing_formulas
    (d x y ps rs rf sz e cap lev price : ℚ) (poss : List PositionRow)
    (hx0 : 0 ≤ x) (hx1 : x ≤ 1) (hy1 : 1 < y) (hy100 : y ≤ 100)
    (hps : 0 < ps) (hsz : 0 < sz) (hcap : 0 < cap) (hlev : 0 < lev)
    (hpr : 0 < price)
    (hsmall : sz * toRatio01 (some rs) 0.1 < sz * 0.999)
    (hfull : sz * 0.999 ≤ sz * toRatio01 (some rf) 0.1) :
    toRatio01 (some x) d = x
  ∧ toRatio01 (some y) d = y / 100
  ∧ computeSignalOrder "open_long" (some ps) none "spot" cap lev price poss
      = some ("open_long", cap * toRatio01 (some ps) 0.05 / price)
  ∧ computeSignalOrder "add_long" (some ps) none "swap" cap lev price poss
      = some ("add_long", cap * toRatio01 (some ps) 0.05 * lev / price)
  ∧ computeSignalOrder "reduce_long" (some rs) none "swap" cap lev price
        [⟨"long", sz, e⟩]
      = some ("reduce_long", sz * toRatio01 (some rs) 0.1)
  ∧ computeSignalOrder "reduce_long" (some rf) none "swap" cap lev price
        [⟨"long", sz, e⟩]
      = some ("close_long", sz) := by
  have hps2 : ¬ ps ≤ 0 := not_le.mpr hps
  have hsz2 : ¬ sz ≤ 0 := not_le.mpr hsz
  refine ⟨?_, ?_, ?_, ?_, ?_, ?_⟩
  · unfold toRatio01
    simp only [Option.getD]
    rw [if_neg (not_lt.mpr hx1), if_neg (not_lt.mpr hx0), if_neg (not_lt.mpr hx1)]
  · unfold toRatio01
    simp only [Option.getD]
    have hd0 : ¬ y / 100 < 0 := not_lt.mpr (by linarith)
    have hd1 : ¬ 1 < y / 100 := not_lt.mpr (by linarith)
    rw [if_pos hy1, if_neg hd0, if_neg hd1]
  · have hamt : ¬ cap * toRatio01 (some ps) (0.05:ℚ) / price ≤ 0 :=
      not_le.mpr (div_pos (mul_pos hcap (toRatio01_pos ps 0.05 hps)) hpr)
    simp +decide [computeSignalOrder, hps2, hamt]
  · have hamt : ¬ cap * toRatio01 (some ps) (0.05:ℚ) * lev / price ≤ 0 :=
      not_le.mpr
        (div_pos (mul_pos (mul_pos hcap (toRatio01_pos ps 0.05 hps)) hlev) hpr)
    simp +decide [computeSignalOrder, hps2, hamt]
  · simp +decide [computeSignalOrder, hsz2, not_le.mpr hsmall]
  · simp +decide [computeSignalOrder, hsz2, hfull]

/-- Witness for C5 at concrete numbers: ratio 0.5 stays 0.5, ratio 50 becomes
50/100, spot and futures sizing at capital 1000 and price 100, a half reduce
of a 2-sized long, and a full reduce promoted to close_long. -/
theorem position_sizing_formulas_witness :
    toRatio01 (some (1/2)) 0 = 1/2
  ∧ toRatio01 (some 50) 0 = 50 / 100
  ∧ computeSignalOrder "open_long" (some 1) none "spot" 1000 5 100 []
      = some ("open_long", 1000 * toRatio01 (some 1) 0.05 / 100)
  ∧ computeSignalOrder "add_long" (some 1) none "swap" 1000 5 100 []
      = some ("add_long", 1000 * toRatio01 (some 1) 0.05 * 5 / 100)
  ∧ computeSignalOrder "reduce_long" (some (1/2)) none "swap" 1000 5 100
        [⟨"long", 2, 100⟩]
      = some ("reduce_long", 2 * toRatio01 (some (1/2)) 0.1)
  ∧ computeSignalOrder "reduce_long" (some 1) none "swap" 1000 5 100
        [⟨"long", 2, 100⟩]
      = some ("close_long", 2) :=
  position_sizing_formulas 0 (1/2) 50 1 (1/2) 1 2 100 1000 5 100 []
    (by decide) (by decide) (by decide) (by decide) (by decide) (by decide)
    (by decide) (by decide) (by decide) (by decide) (by decide)

/-- C6: with stop_loss_pct = sl in (0,1] and leverage ≥ 1, the server-side
stop-loss emits close_long exactly when the price is at or below
entry·(1 − sl/lev) for a long position, and close_short exactly when the
price is at or above entry·(1 + sl/lev) for a short position; a
non-positive sl never fires. -/
theorem server_stop_loss_fires_at_threshold
    (e sz price lev sl slNeg : ℚ) (positions : List PositionRow)
    (he : 0 < e) (hp : 0 < price) (hsl0 : 0 < sl) (hsl1 : sl ≤ 1)
    (hlev : 1 ≤ lev) (hneg : slNeg ≤ 0) :
    (serverStopLossSignal true [⟨"long", sz, e⟩] price lev sl
        = if price ≤ e * (1 - sl / lev) then some ("close_long", e * (1 - sl / lev))
          else none)
  ∧ (serverStopLossSignal true [⟨"short", sz, e⟩] price lev sl
        = if e * (1 + sl / lev) ≤ price then some ("close_short", e * (1 + sl / lev))
          else none)
  ∧ serverStopLossSignal true positions price lev slNeg = none := by
  have hsl' : ¬ (1:ℚ) < sl := not_lt.mpr hsl1
  have hsl'' : ¬ sl ≤ 0 := not_le.mpr hsl0
  have hmax : max 1 lev = lev := max_eq_right hlev
  have hneg' : ¬ (1:ℚ) < slNeg := not_lt.mpr (hneg.trans zero_le_one)
  refine ⟨?_, ?_, ?_⟩
  · simp +decide [serverStopLossSignal, not_le.mpr he, not_le.mpr hp, hsl',
      hsl'', hmax]
  · simp +decide [serverStopLossSignal, not_le.mpr he, not_le.mpr hp, hsl',
      hsl'', hmax]
  · cases positions with
    | nil => rfl
    | cons pos rest => simp [serverStopLossSignal, hneg', hneg]

/-- Witness for C6: a long from entry 100 with sl = 0.02 and leverage 2 has
threshold 99; price 98 fires close_long at the stop line, and sl = 0 never
fires. -/
theorem server_stop_loss_fires_at_threshold_witness :
    (serverStopLossSignal true [⟨"long", 5, 100⟩] 98 2 (1/50)
        = if (98:ℚ) ≤ 100 * (1 - (1/50) / 2) then
            some ("close_long", 100 * (1 - (1/50) / 2))
          else none)
  ∧ (serverStopLossSignal true [⟨"short", 5, 100⟩] 98 2 (1/50)
        = if (100:ℚ) * (1 + (1/50) / 2) ≤ 98 then
            some ("close_short", 100 * (1 + (1/50) / 2))
          else none)
  ∧ serverStopLossSignal true [] 98 2 0 = none :=
  server_stop_loss_fires_at_threshold 100 5 98 2 (1/50) 0 []
    (by decide) (by decide) (by decide) (by decide) (by decide) (by decide)

theorem rowDecision_after_update (es : String → String → ℚ) (r : LocalPosRow)
    (q : ℚ) (h : rowDecision es r = .updateRow q) :
    rowDecision es { r with size := q } = .skipRow := by
  unfold rowDecision at h ⊢
  simp only at h ⊢
  split at h
  next hguard => exact absurd h (by simp)
  next hguard =>
    rw [if_neg hguard]
    split at h
    next hflat => exact absurd h (by simp)
    next hflat =>
      rw [if_neg hflat]
      split at h
      next hup =>
        injection h with hq
        have hqpos : (0:ℚ) < q := by
          rw [← hq]
          have h1 := not_le.mp hflat
          have h2 : (0:ℚ) < syncEps := by norm_num [syncEps]
          linarith
        split
        next hc =>
          exfalso
          simp only [Bool.or_eq_true, decide_eq_true_eq] at hc
          rcases hc with hc | hc
          · linarith
          · rw [hq] at hc
            simp only [sub_self, abs_zero, zero_div] at hc
            norm_num at hc
        next hc => rfl
      next hup => exact absurd h (by simp)

/-- C7: during reconciliation, each valid local row whose (symbol, side) the
exchange snapshot reports flat within epsilon is deleted; otherwise the
local size is updated to the exchange quantity exactly when the relative
divergence |exch − local| / max(1, local) exceeds 1%; and the table after a
reconciliation pass contains only rows that already existed (no row is ever
created). -/
theorem reconcile_row_actions
    (esFlat esHigh es2 : String → String → ℚ) (r : LocalPosRow)
    (rows : List LocalPosRow) (r2 : LocalPosRow)
    (hid : r.rid ≠ 0) (hsym : stripStr r.symbol ≠ "")
    (hside : lowerStr (stripStr r.side) = "long"
        ∨ lowerStr (stripStr r.side) = "short")
    (hsz : 0 < r.size)
    (hflat : esFlat (stripStr r.symbol) (lowerStr (stripStr r.side)) ≤ syncEps)
    (hhigh : syncEps < esHigh (stripStr r.symbol) (lowerStr (stripStr r.side)))
    (hmem : r2 ∈ applyReconcile es2 rows) :
    rowDecision esFlat r = .deleteRow
  ∧ (rowDecision esHigh r
        = .updateRow (esHigh (stripStr r.symbol) (lowerStr (stripStr r.side)))
      ↔ 1/100 < |esHigh (stripStr r.symbol) (lowerStr (stripStr r.side)) - r.size|
          / max 1 r.size)
  ∧ ∃ r0 ∈ rows, r2.rid = r0.rid ∧ r2.symbol = r0.symbol ∧ r2.side = r0.side := by
  have hsz2 : ¬ r.size ≤ 0 := not_le.mpr hsz
  refine ⟨?_, ?_, ?_⟩
  · rcases hside with hs | hs <;>
      rw [hs] at hflat <;>
      simp +decide [rowDecision, hid, hsym, hs, hflat]
  · rcases hside with hs | hs
    · rw [hs] at hhigh ⊢
      by_cases hup : (1:ℚ)/100 <
          |esHigh (stripStr r.symbol) "long" - r.size| / max 1 r.size
      · simp +decide [rowDecision, hid, hsym, hs, not_le.mpr hhigh, hsz2, hup]
      · simp +decide [rowDecision, hid, hsym, hs, not_le.mpr hhigh, hsz2, hup]
    · rw [hs] at hhigh ⊢
      by_cases hup : (1:ℚ)/100 <
          |esHigh (stripStr r.symbol) "short" - r.size| / max 1 r.size
      · simp +decide [rowDecision, hid, hsym, hs, not_le.mpr hhigh, hsz2, hup]
      · simp +decide [rowDecision, hid, hsym, hs, not_le.mpr hhigh, hsz2, hup]
  · rcases List.mem_filterMap.mp hmem with ⟨r0, hr0, hf⟩
    refine ⟨r0, hr0, ?_⟩
    rcases hdec : rowDecision es2 r0 with _ | _ | q <;> simp only [hdec] at hf
    · cases hf
      exact ⟨rfl, rfl, rfl⟩
    · cases hf
    · cases hf
      exact ⟨rfl, rfl, rfl⟩

/-- Witness for C7: a valid row is deleted against a flat snapshot, updated
against a diverged snapshot, and the reconciled table only rewrites existing
rows. -/
theorem reconcile_row_actions_witness :
    rowDecision (fun _ _ => 0) ⟨3, "BTC/USDT", "long", 1⟩ = .deleteRow
  ∧ (rowDecision (fun _ _ => 2) ⟨3, "BTC/USDT", "long", 1⟩
        = .updateRow ((fun _ _ => (2:ℚ)) (stripStr "BTC/USDT")
            (lowerStr (stripStr "long")))
      ↔ 1/100 < |(fun _ _ => (2:ℚ)) (stripStr "BTC/USDT")
            (lowerStr (stripStr "long")) - 1| / max 1 1)
  ∧ ∃ r0 ∈ [(⟨3, "BTC/USDT", "long", 1⟩ : LocalPosRow)],
      (⟨3, "BTC/USDT", "long", 2⟩ : LocalPosRow).rid = r0.rid
        ∧ (⟨3, "BTC/USDT", "long", 2⟩ : LocalPosRow).symbol = r0.symbol
        ∧ (⟨3, "BTC/USDT", "long", 2⟩ : LocalPosRow).side = r0.side :=
  reconcile_row_actions (fun _ _ => 0) (fun _ _ => 2) (fun _ _ => 2)
    ⟨3, "BTC/USDT", "long", 1⟩ [⟨3, "BTC/USDT", "long", 1⟩]
    ⟨3, "BTC/USDT", "long", 2⟩ (by decide) (by decide) (by decide) (by decide)
    (by decide) (by decide) (by decide)

/-- C8: reconciliation is idempotent; applied to the table it itself
produced against the same exchange snapshot, a second pass performs zero
database writes. -/
theorem reconcile_idempotent (es : String → String → ℚ)
    (rows : List LocalPosRow) :
    reconcileWriteCount es (applyReconcile es rows) = 0 := by
  unfold reconcileWriteCount applyReconcile
  induction rows with
  | nil => rfl
  | cons r rest ih =>
    rw [List.filterMap_cons]
    rcases hdec : rowDecision es r with _ | _ | q
    · simp only [hdec, List.countP_cons]
      rw [ih]
      simp [hdec]
    · simp only [hdec]
      exact ih
    · simp only [hdec, List.countP_cons]
      rw [ih]
      have h2 := rowDecision_after_update es r q hdec
      simp [h2]

/-- Witness for C9: both phases observe zero fill for a 5-unit order with
reference price 100; the order is persisted as sent with filled 5 at
avg_price 100 and the synthesized fill is applied locally. -/
theorem zero_observed_fill_synthesized_as_full_witness :
    executeLiveOrder 5 100 true (.observedFill 0 0) false (.observedFill 0 0)
      = .sentQ 5 100 true :=
  zero_observed_fill_synthesized_as_full 5 100 0 0 0 0 true false
    (by decide) (by decide) (by decide) (by decide)
